import Mathlib

/-!
Verification of the best-ball draft analyzer (`helpers.py` / `main.py`).

The dataset is a list of pick records.  `next_pick_distribution` and
`co_draft_multiple` read the four columns `SNAKEDRAFTNUM`, `draft_slot`,
`OVERALLPICKNUM`, `PLAYERNAME`; `get_data` derives the columns `round`,
`pick_in_round`, `draft_slot` from `OVERALLPICKNUM` with `NUM_TEAMS = 12`.
Percentages are modelled in exact rational arithmetic (`ℚ`).
-/

namespace BBA

/-- `NUM_TEAMS = 12` from `helpers.py`. -/
def NUM_TEAMS : Nat := 12

/-- One row of the enriched dataset, with the four columns the two
analyzers read.  `draft_slot` is an `Int` because the slot formula in
`slot` is signed integer arithmetic. -/
structure Row where
  snakedraftnum : Nat
  draft_slot : Int
  overallpicknum : Nat
  playername : String
  deriving DecidableEq, Repr

/-! ## Draft Model Builder (`slot`, `get_data`) -/

/-- Raw pick record before enrichment: the three input columns
`SNAKEDRAFTNUM`, `OVERALLPICKNUM`, `PLAYERNAME` of `drafts.csv`. -/
structure RawRow where
  snakedraftnum : Nat
  overallpicknum : Nat
  playername : String
  deriving DecidableEq, Repr

/-- The column `round = np.ceil(OVERALLPICKNUM / NUM_TEAMS)` of
`get_data`, as the exact ceiling of the rational quotient. -/
def roundOf (n : Nat) : Int := Int.ceil ((n : ℚ) / (NUM_TEAMS : ℚ))

/-- The column `pick_in_round = OVERALLPICKNUM - (round - 1) * NUM_TEAMS`
of `get_data`, in signed integer arithmetic as in pandas. -/
def pickInRoundOf (n : Nat) : Int := (n : Int) - (roundOf n - 1) * (NUM_TEAMS : Int)

/-- The function `slot(row)` of `helpers.py`: forward order in an odd
round, reversed order in an even round. -/
def slot (round pick_in_round : Int) : Int :=
  if round % 2 = 1 then pick_in_round else (NUM_TEAMS : Int) - pick_in_round + 1

/-- One row of the dataframe returned by `get_data`, restricted to the
columns involved in the derived-attribute computation. -/
structure Enriched where
  snakedraftnum : Nat
  overallpicknum : Nat
  playername : String
  round : Int
  pick_in_round : Int
  draft_slot : Int
  deriving DecidableEq, Repr

/-- The derived-column computation of `get_data` (lines 124-128 of
`helpers.py`), applied to one raw row.  The CSV loading and the
metadata left-join with `player_info` (which only appends the columns
`Name`, `Team`, `Position`, `ID`) are outside the embedding. -/
def enrichRow (r : RawRow) : Enriched :=
  { snakedraftnum := r.snakedraftnum
    overallpicknum := r.overallpicknum
    playername := r.playername
    round := roundOf r.overallpicknum
    pick_in_round := pickInRoundOf r.overallpicknum
    draft_slot := slot (roundOf r.overallpicknum) (pickInRoundOf r.overallpicknum) }

/-- `get_data` on an already-loaded list of raw pick records: the
row-wise derived-column computation. -/
def get_data (raw : List RawRow) : List Enriched := raw.map enrichRow

/-! ## Next-Pick Analyzer (`next_pick_distribution`)

The pandas pipeline is embedded step by step: `occs` is the
`reset_index`-ed selection of the player's rows, `mergedL` the left
merge on `(SNAKEDRAFTNUM, draft_slot)`, `filteredL` the
`candidate_pick > pick_num` filter, and `firstMinCand` the per-group
`idxmin` (the first row attaining the minimal `candidate_pick`). -/

/-- The merge key test: same `SNAKEDRAFTNUM` and same `draft_slot`. -/
def sameTeam (a b : Row) : Bool :=
  a.snakedraftnum == b.snakedraftnum && a.draft_slot == b.draft_slot

/-- The `occ` frame: rows whose `PLAYERNAME` equals the target player,
tagged with their original dataframe index (`reset_index`). -/
def occs (df : List Row) (player : String) : List (Nat × Row) :=
  df.enum.filter (fun o => o.2.playername == player)

/-- One row of the `merged` frame: occurrence index, occurrence row
(carrying `pick_num`), and candidate row (carrying `candidate_pick`
and `next_player`). -/
structure MRow where
  occ_index : Nat
  occ : Row
  cand : Row
  deriving DecidableEq, Repr

/-- The `merged` frame: each occurrence left-joined with every row of
`df` sharing its `(SNAKEDRAFTNUM, draft_slot)`; pandas keeps left
order, and right-frame order within a left row. -/
def mergedL (df : List Row) (player : String) : List MRow :=
  (occs df player).flatMap (fun o =>
    (df.filter (fun r => sameTeam o.2 r)).map (fun r => ⟨o.1, o.2, r⟩))

/-- The `filtered` frame: `candidate_pick > pick_num`. -/
def filteredL (df : List Row) (player : String) : List MRow :=
  (mergedL df player).filter (fun m => m.occ.overallpicknum < m.cand.overallpicknum)

/-- `idxmin` over one group: the first row of the group attaining the
minimal `candidate_pick`.  Ties keep the earlier row, as pandas
`idxmin` returns the first index of the minimum. -/
def firstMinCand : List MRow → Option MRow
  | [] => none
  | m :: ms =>
    match firstMinCand ms with
    | none => some m
    | some b => if b.cand.overallpicknum < m.cand.overallpicknum then some b else some m

/-- The `next_players` series: `filtered.groupby("occ_index")` (group
keys ascend, and the occurrence indices already ascend along `occs`),
`idxmin` per group, then the `next_player` column.  An occurrence whose
group is empty contributes nothing. -/
def nextPlayers (df : List Row) (player : String) : List String :=
  (occs df player).filterMap (fun o =>
    (firstMinCand ((filteredL df player).filter (fun m => m.occ_index == o.1))).map
      (fun m => m.cand.playername))

/-- One output row of `next_pick_distribution`. -/
structure DistRow where
  next_player : String
  count : Nat
  pct : ℚ
  deriving DecidableEq, Repr

/-- The `value_counts` tally of the observed next players: each
distinct value with its number of observations.  The descending-count
ordering of `value_counts` is implementation-defined tie order and no
claim depends on row order, so the tally keeps `dedup` order. -/
def distOf (np : List String) : List (String × Nat) :=
  np.dedup.map (fun s => (s, np.count s))

/-- The variable `total = dist["count"].sum()`. -/
def totalOf (np : List String) : Nat := ((distOf np).map Prod.snd).sum

/-- The function `next_pick_distribution(df, player)` of `helpers.py`,
with its two early returns of an empty frame and the percentage column
`count / total * 100`. -/
def next_pick_distribution (df : List Row) (player : String) : List DistRow :=
  if (occs df player).isEmpty then []
  else if (filteredL df player).isEmpty then []
  else
    (distOf (nextPlayers df player)).map
      (fun p => ⟨p.1, p.2, (p.2 : ℚ) / (totalOf (nextPlayers df player) : ℚ) * 100⟩)

/-! ## Co-Draft Analyzer (`co_draft_multiple`) -/

/-- The result bundle returned by `co_draft_multiple`. -/
structure CoDraftResult where
  players : List String
  num_first : Nat
  num_all : Nat
  pct_together : ℚ
  common_pairs : Finset (Nat × Int)
  deriving DecidableEq

/-- The per-player set built inside `co_draft_multiple`: the set of
`(SNAKEDRAFTNUM, draft_slot)` pairs of the rows naming the player. -/
def pairSet (df : List Row) (player : String) : Finset (Nat × Int) :=
  ((df.filter (fun r => r.playername == player)).map
    (fun r => (r.snakedraftnum, r.draft_slot))).toFinset

/-- Python `set.intersection(*pair_sets)`: the left fold of binary
intersection over a non-empty list of sets (empty input never reaches
it in `co_draft_multiple`). -/
def interAll : List (Finset (Nat × Int)) → Finset (Nat × Int)
  | [] => ∅
  | s :: rest => rest.foldl (fun a b => a ∩ b) s

/-- The function `co_draft_multiple(df, players)` of `helpers.py`.  The
`raise ValueError` on an empty list is the `Except.error` branch;
`first_set = pair_sets[0]`; the division guard
`(num_all / num_first * 100) if num_first else 0.0` is the `if`. -/
def co_draft_multiple (df : List Row) (players : List String) :
    Except String CoDraftResult :=
  match players with
  | [] => Except.error "Please supply at least one player name."
  | p :: ps =>
    let pair_sets := (p :: ps).map (fun q => pairSet df q)
    let first_set := pairSet df p
    let common := interAll pair_sets
    let num_first := first_set.card
    let num_all := common.card
    let pct : ℚ := if num_first = 0 then 0 else (num_all : ℚ) / (num_first : ℚ) * 100
    Except.ok ⟨p :: ps, num_first, num_all, pct, common⟩

/-! ## Spec-side definitions and helper lemmas for the Co-Draft Analyzer -/

/-- Modelled from the spec (§4.3 step 1): the set of team-draft keys
`(draft_id, draft_slot)` at which a player was ever selected.  Compared
against the code-side `pairSet`. -/
def keysOf (df : List Row) (q : String) : Finset (Nat × Int) :=
  (df.toFinset.filter (fun r => r.playername = q)).image
    (fun r => (r.snakedraftnum, r.draft_slot))

theorem pairSet_eq_keysOf (df : List Row) (q : String) : pairSet df q = keysOf df q := by
  ext k
  simp only [pairSet, keysOf, List.mem_toFinset, List.mem_map, List.mem_filter,
    Finset.mem_image, Finset.mem_filter, beq_iff_eq]

theorem mem_foldl_inter (l : List (Finset (Nat × Int))) (acc : Finset (Nat × Int))
    (k : Nat × Int) :
    k ∈ l.foldl (fun a b => a ∩ b) acc ↔ k ∈ acc ∧ ∀ s ∈ l, k ∈ s := by
  induction l generalizing acc with
  | nil => simp
  | cons s rest ih =>
    simp only [List.foldl_cons, ih, Finset.mem_inter, List.mem_cons]
    constructor
    · rintro ⟨⟨ha, hs⟩, hrest⟩
      exact ⟨ha, fun t ht => ht.elim (fun h => h ▸ hs) (hrest t)⟩
    · rintro ⟨ha, hall⟩
      exact ⟨⟨ha, hall s (Or.inl rfl)⟩, fun t ht => hall t (Or.inr ht)⟩

theorem mem_interAll_cons (s : Finset (Nat × Int)) (rest : List (Finset (Nat × Int)))
    (k : Nat × Int) :
    k ∈ interAll (s :: rest) ↔ k ∈ s ∧ ∀ t ∈ rest, k ∈ t := by
  simp [interAll, mem_foldl_inter]

theorem mem_common_iff (df : List Row) (p : String) (ps : List String) (k : Nat × Int) :
    k ∈ interAll ((p :: ps).map (fun q => pairSet df q)) ↔
      ∀ q ∈ p :: ps, k ∈ pairSet df q := by
  rw [List.map_cons, mem_interAll_cons]
  constructor
  · rintro ⟨hp, hrest⟩ q hq
    rcases List.mem_cons.1 hq with rfl | hq
    · exact hp
    · exact hrest (pairSet df q) (List.mem_map.2 ⟨q, hq, rfl⟩)
  · intro h
    refine ⟨h p (List.mem_cons_self p ps), ?_⟩
    intro t ht
    rcases List.mem_map.1 ht with ⟨q, hq, rfl⟩
    exact h q (List.mem_cons_of_mem _ hq)

theorem interAll_cons_subset (s : Finset (Nat × Int)) (rest : List (Finset (Nat × Int))) :
    interAll (s :: rest) ⊆ s :=
  fun k hk => ((mem_interAll_cons s rest k).1 hk).1

theorem co_draft_cons (df : List Row) (p : String) (ps : List String) :
    co_draft_multiple df (p :: ps) = Except.ok
      ⟨p :: ps, (pairSet df p).card,
        (interAll ((p :: ps).map (fun q => pairSet df q))).card,
        if (pairSet df p).card = 0 then 0
        else ((interAll ((p :: ps).map (fun q => pairSet df q))).card : ℚ) /
          ((pairSet df p).card : ℚ) * 100,
        interAll ((p :: ps).map (fun q => pairSet df q))⟩ := rfl

/-! ## Claims about the Co-Draft Analyzer -/

/-- C3: for every dataset and every non-empty players list,
`co_draft_multiple` returns `num_first` = number of distinct team-draft
keys of `players[0]`, `common_pairs` = intersection of all per-player
key sets, `num_all` its size, and `pct_together = num_all / num_first *
100` when `num_first > 0` and `0.0` when `num_first = 0`. -/
theorem C3_co_draft_fields (df : List Row) (p : String) (ps : List String) :
    ∃ res, co_draft_multiple df (p :: ps) = Except.ok res ∧
      res.num_first = (keysOf df p).card ∧
      (∀ k, k ∈ res.common_pairs ↔ ∀ q ∈ p :: ps, k ∈ keysOf df q) ∧
      res.num_all = res.common_pairs.card ∧
      (res.num_first ≠ 0 →
        res.pct_together = (res.num_all : ℚ) / (res.num_first : ℚ) * 100) ∧
      (res.num_first = 0 → res.pct_together = 0) := by
  refine ⟨_, rfl, ?_, ?_, rfl, ?_, ?_⟩
  · rw [pairSet_eq_keysOf]
  · intro k
    rw [mem_common_iff]
    simp only [pairSet_eq_keysOf]
  · intro h
    simp only [if_neg h]
  · intro h
    simp only [if_pos h]

/-- C5: `co_draft_multiple` returns the `ValueError` branch if and only
if the players list is empty; every non-empty list yields a result. -/
theorem C5_empty_list_error (df : List Row) (players : List String) :
    (∃ e, co_draft_multiple df players = Except.error e) ↔ players = [] := by
  cases players with
  | nil => simp [co_draft_multiple]
  | cons p ps => simp [co_draft_multiple]

/-- C6 counterexample: on the empty dataset and the single-element list
`["A"]` (a player with zero occurrences), `co_draft_multiple` returns
`pct_together = 0`, not `100` as the claim states for every dataset. -/
theorem C6_counterexample :
    ∃ res, co_draft_multiple ([] : List Row) ["A"] = Except.ok res ∧
      res.pct_together ≠ 100 := by
  refine ⟨_, rfl, ?_⟩
  decide

/-- C6 amended: for every dataset, a single-element list returns
`common_pairs = first_set`; `pct_together = 100` whenever the player
has at least one occurrence, and a player with zero occurrences gives
`num_first = 0` and, through the division guard, `pct_together = 0`. -/
theorem C6_singleton (df : List Row) (p : String) :
    ∃ res, co_draft_multiple df [p] = Except.ok res ∧
      res.common_pairs = keysOf df p ∧
      ((∃ r ∈ df, r.playername = p) → res.pct_together = 100) ∧
      ((∀ r ∈ df, ¬ r.playername = p) → res.num_first = 0 ∧ res.pct_together = 0) := by
  refine ⟨_, rfl, ?_, ?_, ?_⟩
  · rw [show interAll ([p].map (fun q => pairSet df q)) = pairSet df p from rfl,
      pairSet_eq_keysOf]
  · rintro ⟨r, hr, hp⟩
    have hmem : (r.snakedraftnum, r.draft_slot) ∈ pairSet df p := by
      simp only [pairSet, List.mem_toFinset, List.mem_map, List.mem_filter, beq_iff_eq]
      exact ⟨r, ⟨hr, hp⟩, rfl⟩
    have hcard : (pairSet df p).card ≠ 0 :=
      Finset.card_ne_zero_of_mem hmem
    have hall : interAll ([p].map (fun q => pairSet df q)) = pairSet df p := rfl
    simp only [hall, if_neg hcard]
    rw [div_self (by exact_mod_cast hcard), one_mul]
  · intro h
    have hnil : df.filter (fun r => r.playername == p) = [] :=
      List.filter_eq_nil_iff.2 (fun r hr hc => h r hr (by simpa using hc))
    have hempty : pairSet df p = ∅ := by
      rw [pairSet, hnil]
      rfl
    have hcard : (pairSet df p).card = 0 := by
      rw [hempty]
      rfl
    refine ⟨hcard, ?_⟩
    simp only [if_pos hcard]

/-- C9: for permutations of a non-empty players list, `common_pairs`
and `num_all` agree, and when the permutations share the same first
player, `num_first` and `pct_together` agree as well. -/
theorem C9_order_independence (df : List Row) (l1 l2 : List String)
    (hperm : l1.Perm l2) (h1 : l1 ≠ []) :
    ∃ r1 r2, co_draft_multiple df l1 = Except.ok r1 ∧
      co_draft_multiple df l2 = Except.ok r2 ∧
      r1.common_pairs = r2.common_pairs ∧ r1.num_all = r2.num_all ∧
      (l1.head? = l2.head? → r1.num_first = r2.num_first ∧
        r1.pct_together = r2.pct_together) := by
  cases l1 with
  | nil => exact absurd rfl h1
  | cons p1 t1 =>
    cases l2 with
    | nil => exact absurd hperm.eq_nil (by simp)
    | cons p2 t2 =>
      have hcs : interAll ((p1 :: t1).map (fun q => pairSet df q)) =
          interAll ((p2 :: t2).map (fun q => pairSet df q)) := by
        ext k
        rw [mem_common_iff, mem_common_iff]
        exact ⟨fun h q hq => h q (hperm.mem_iff.2 hq),
          fun h q hq => h q (hperm.mem_iff.1 hq)⟩
      refine ⟨_, _, co_draft_cons df p1 t1, co_draft_cons df p2 t2, ?_, ?_, ?_⟩
      · exact hcs
      · exact congrArg Finset.card hcs
      · intro hhead
        have hp : p1 = p2 := by simpa using hhead
        subst hp
        refine ⟨rfl, ?_⟩
        dsimp only
        rw [hcs]

/-- Witness for C9 at a concrete dataset and a pair of permuted lists
sharing the same head. -/
theorem C9_witness :
    (["A", "B", "C"].Perm ["A", "C", "B"] ∧ (["A", "B", "C"] : List String) ≠ []) ∧
      ∃ r1 r2, co_draft_multiple [(⟨1, 1, 1, "A"⟩ : Row)] ["A", "B", "C"] = Except.ok r1 ∧
        co_draft_multiple [(⟨1, 1, 1, "A"⟩ : Row)] ["A", "C", "B"] = Except.ok r2 ∧
        r1.common_pairs = r2.common_pairs ∧ r1.num_all = r2.num_all ∧
        (["A", "B", "C"].head? = ["A", "C", "B"].head? →
          r1.num_first = r2.num_first ∧ r1.pct_together = r2.pct_together) :=
  ⟨⟨by decide, by decide⟩,
    C9_order_independence [(⟨1, 1, 1, "A"⟩ : Row)] ["A", "B", "C"] ["A", "C", "B"]
      (by decide) (by decide)⟩

/-- C10: the result of `co_draft_multiple` on a non-empty list satisfies
`common_pairs ⊆ first_set`, `num_all ≤ num_first`, and
`0 ≤ pct_together ≤ 100`. -/
theorem C10_invariants (df : List Row) (p : String) (ps : List String) :
    ∃ res, co_draft_multiple df (p :: ps) = Except.ok res ∧
      res.common_pairs ⊆ keysOf df p ∧ res.num_all ≤ res.num_first ∧
      0 ≤ res.pct_together ∧ res.pct_together ≤ 100 := by
  refine ⟨_, rfl, ?_, ?_, ?_, ?_⟩
  · rw [← pairSet_eq_keysOf, List.map_cons]
    exact interAll_cons_subset _ _
  · exact Finset.card_le_card (by rw [List.map_cons]; exact interAll_cons_subset _ _)
  · dsimp only
    split
    · exact le_refl (0 : ℚ)
    · positivity
  · dsimp only
    split
    · norm_num
    · rename_i hne
      have hle : (interAll ((p :: ps).map (fun q => pairSet df q))).card ≤
          (pairSet df p).card :=
        Finset.card_le_card (by rw [List.map_cons]; exact interAll_cons_subset _ _)
      have hpos : (0 : ℚ) < ((pairSet df p).card : ℚ) := by
        have : 0 < (pairSet df p).card := Nat.pos_of_ne_zero hne
        exact_mod_cast this
      have hdiv : ((interAll ((p :: ps).map (fun q => pairSet df q))).card : ℚ) /
          ((pairSet df p).card : ℚ) ≤ 1 := by
        rw [div_le_one hpos]
        exact_mod_cast hle
      nlinarith [hdiv]

/-! ## Helper lemmas for the Draft Model Builder -/

theorem roundOf_bounds (n : Nat) :
    (roundOf n - 1) * (NUM_TEAMS : Int) < (n : Int) ∧
      (n : Int) ≤ roundOf n * (NUM_TEAMS : Int) := by
  have h12 : ((NUM_TEAMS : ℚ)) = 12 := by norm_num [NUM_TEAMS]
  constructor
  · by_contra hc
    push_neg at hc
    have hq : (n : ℚ) / (NUM_TEAMS : ℚ) ≤ ((roundOf n - 1 : Int) : ℚ) := by
      rw [div_le_iff₀ (by rw [h12]; norm_num)]
      have hcast : ((n : Int) : ℚ) ≤ (((roundOf n - 1) * (NUM_TEAMS : Int) : Int) : ℚ) := by
        exact_mod_cast hc
      push_cast at hcast ⊢
      linarith
    have hle : roundOf n ≤ roundOf n - 1 := Int.ceil_le.2 hq
    omega
  · have hq : (n : ℚ) / (NUM_TEAMS : ℚ) ≤ ((roundOf n : Int) : ℚ) := Int.le_ceil _
    rw [div_le_iff₀ (by rw [h12]; norm_num)] at hq
    have hcast : ((n : Int) : ℚ) ≤ ((roundOf n * (NUM_TEAMS : Int) : Int) : ℚ) := by
      push_cast at hq ⊢
      linarith
    exact_mod_cast hcast

theorem roundOf_eq_natDiv (n : Nat) :
    roundOf n = (((n + NUM_TEAMS - 1) / NUM_TEAMS : Nat) : Int) := by
  obtain ⟨h1, h2⟩ := roundOf_bounds n
  simp only [NUM_TEAMS] at h1 h2 ⊢
  omega

theorem pickInRoundOf_range (n : Nat) (_h : 1 ≤ n) :
    1 ≤ pickInRoundOf n ∧ pickInRoundOf n ≤ (NUM_TEAMS : Int) := by
  obtain ⟨h1, h2⟩ := roundOf_bounds n
  simp only [pickInRoundOf, NUM_TEAMS] at *
  omega

/-! ## Claims about the Draft Model Builder -/

/-- C1: every enriched pick record satisfies `round =
ceil(overall_pick_number / team_count)` (stated both by the
characterizing inequalities of the 1-based ceiling and as the integer
ceiling division), `pick_in_round = overall_pick_number - (round - 1) *
team_count`, and the snake-draft slot rule with `team_count = 12`. -/
theorem C1_derived_attributes (raw : List RawRow) (e : Enriched)
    (he : e ∈ get_data raw) :
    ((e.round - 1) * (NUM_TEAMS : Int) < (e.overallpicknum : Int) ∧
      (e.overallpicknum : Int) ≤ e.round * (NUM_TEAMS : Int)) ∧
    e.round = (((e.overallpicknum + NUM_TEAMS - 1) / NUM_TEAMS : Nat) : Int) ∧
    e.pick_in_round = (e.overallpicknum : Int) - (e.round - 1) * (NUM_TEAMS : Int) ∧
    (e.round % 2 = 1 → e.draft_slot = e.pick_in_round) ∧
    (e.round % 2 = 0 → e.draft_slot = (NUM_TEAMS : Int) - e.pick_in_round + 1) := by
  rcases List.mem_map.1 he with ⟨r, hr, rfl⟩
  simp only [enrichRow]
  refine ⟨roundOf_bounds r.overallpicknum, roundOf_eq_natDiv r.overallpicknum, rfl, ?_, ?_⟩
  · intro hodd
    rw [slot, if_pos hodd]
  · intro heven
    rw [slot, if_neg (by omega)]

/-- Witness for C1 at the one-row dataset with overall pick 13
(round 2, pick-in-round 1, slot 12). -/
theorem C1_witness :
    (enrichRow ⟨1, 13, "A"⟩ ∈ get_data [⟨1, 13, "A"⟩]) ∧
    (((enrichRow ⟨1, 13, "A"⟩).round - 1) * (NUM_TEAMS : Int) <
        ((enrichRow ⟨1, 13, "A"⟩).overallpicknum : Int) ∧
      ((enrichRow ⟨1, 13, "A"⟩).overallpicknum : Int) ≤
        (enrichRow ⟨1, 13, "A"⟩).round * (NUM_TEAMS : Int)) ∧
    (enrichRow ⟨1, 13, "A"⟩).round =
      ((((enrichRow ⟨1, 13, "A"⟩).overallpicknum + NUM_TEAMS - 1) / NUM_TEAMS : Nat) : Int) ∧
    (enrichRow ⟨1, 13, "A"⟩).pick_in_round =
      ((enrichRow ⟨1, 13, "A"⟩).overallpicknum : Int) -
        ((enrichRow ⟨1, 13, "A"⟩).round - 1) * (NUM_TEAMS : Int) ∧
    ((enrichRow ⟨1, 13, "A"⟩).round % 2 = 1 →
      (enrichRow ⟨1, 13, "A"⟩).draft_slot = (enrichRow ⟨1, 13, "A"⟩).pick_in_round) ∧
    ((enrichRow ⟨1, 13, "A"⟩).round % 2 = 0 →
      (enrichRow ⟨1, 13, "A"⟩).draft_slot =
        (NUM_TEAMS : Int) - (enrichRow ⟨1, 13, "A"⟩).pick_in_round + 1) :=
  ⟨List.mem_singleton.2 rfl,
    C1_derived_attributes [⟨1, 13, "A"⟩] (enrichRow ⟨1, 13, "A"⟩) (List.mem_singleton.2 rfl)⟩

/-- C4 counterexample: nothing in the builder raises an error.  `slot`
applied to the out-of-range `pick_in_round = 13` (round 2) silently
returns the out-of-range slot `0` instead of surfacing a
data-integrity failure. -/
theorem C4_counterexample :
    slot 2 13 = 0 ∧ ¬ (1 ≤ slot 2 13 ∧ slot 2 13 ≤ (NUM_TEAMS : Int)) := by
  constructor
  · rfl
  · decide

/-- C4 amended: the builder performs no validation and cannot fail
(`slot` and `get_data` are total; `team_count` is the fixed positive
constant 12); an out-of-range `pick_in_round` would silently produce an
out-of-range slot, but for every pick number `≥ 1` the derived
`pick_in_round` and `draft_slot` always lie in `[1, 12]`, so `get_data`
never produces wrong slots. -/
theorem C4_no_failure_slots_in_range (raw : List RawRow) (e : Enriched)
    (he : e ∈ get_data raw) (h1 : 1 ≤ e.overallpicknum) :
    1 ≤ e.pick_in_round ∧ e.pick_in_round ≤ (NUM_TEAMS : Int) ∧
      1 ≤ e.draft_slot ∧ e.draft_slot ≤ (NUM_TEAMS : Int) := by
  rcases List.mem_map.1 he with ⟨r, hr, rfl⟩
  obtain ⟨hp1, hp2⟩ := pickInRoundOf_range r.overallpicknum h1
  refine ⟨hp1, hp2, ?_⟩
  show 1 ≤ slot (roundOf r.overallpicknum) (pickInRoundOf r.overallpicknum) ∧
    slot (roundOf r.overallpicknum) (pickInRoundOf r.overallpicknum) ≤ (NUM_TEAMS : Int)
  rw [slot]
  split
  · exact ⟨hp1, hp2⟩
  · simp only [NUM_TEAMS] at *
    omega

/-- Witness for C4 amended at the one-row dataset with overall pick 24
(round 2, pick-in-round 12, slot 1). -/
theorem C4_witness :
    (enrichRow ⟨1, 24, "A"⟩ ∈ get_data [⟨1, 24, "A"⟩] ∧
      1 ≤ (enrichRow ⟨1, 24, "A"⟩).overallpicknum) ∧
    (1 ≤ (enrichRow ⟨1, 24, "A"⟩).pick_in_round ∧
      (enrichRow ⟨1, 24, "A"⟩).pick_in_round ≤ (NUM_TEAMS : Int) ∧
      1 ≤ (enrichRow ⟨1, 24, "A"⟩).draft_slot ∧
      (enrichRow ⟨1, 24, "A"⟩).draft_slot ≤ (NUM_TEAMS : Int)) :=
  ⟨⟨List.mem_singleton.2 rfl, by norm_num [enrichRow]⟩,
    C4_no_failure_slots_in_range [⟨1, 24, "A"⟩] (enrichRow ⟨1, 24, "A"⟩)
      (List.mem_singleton.2 rfl) (by norm_num [enrichRow])⟩

/-! ## Spec-side definitions and helper lemmas for the Next-Pick Analyzer -/

/-- Modelled from the spec (§4.2 step 2): the rows sharing the
occurrence's `(draft_id, draft_slot)` whose `overall_pick_number` is
strictly greater.  The occurrence row itself never qualifies since the
pick comparison is strict. -/
def laterTeamPicks (df : List Row) (o : Row) : List Row :=
  df.filter (fun r => sameTeam o r && decide (o.overallpicknum < r.overallpicknum))

/-- Modelled from the spec (§4.2 step 3): the candidate with the
minimum `overall_pick_number`; the first such row when duplicated pick
numbers violate the uniqueness invariant. -/
def firstMinRow : List Row → Option Row
  | [] => none
  | r :: rs =>
    match firstMinRow rs with
    | none => some r
    | some b => if b.overallpicknum < r.overallpicknum then some b else some r

theorem firstMinRow_eq_none_iff (l : List Row) : firstMinRow l = none ↔ l = [] := by
  cases l with
  | nil => simp [firstMinRow]
  | cons r rs =>
    cases hrs : firstMinRow rs with
    | none => simp [firstMinRow, hrs]
    | some b =>
      simp only [firstMinRow, hrs]
      constructor
      · intro h
        split at h <;> simp_all
      · intro h
        simp at h

theorem firstMinRow_mem : ∀ (l : List Row) (b : Row), firstMinRow l = some b → b ∈ l := by
  intro l
  induction l with
  | nil => intro b h; simp [firstMinRow] at h
  | cons r rs ih =>
    intro b h
    cases hrs : firstMinRow rs with
    | none =>
      simp only [firstMinRow, hrs] at h
      have hrb : r = b := Option.some_inj.1 h
      exact hrb ▸ List.mem_cons_self r rs
    | some c =>
      simp only [firstMinRow, hrs] at h
      by_cases hlt : c.overallpicknum < r.overallpicknum
      · rw [if_pos hlt] at h
        have hcb : c = b := Option.some_inj.1 h
        exact List.mem_cons_of_mem r (hcb ▸ ih c hrs)
      · rw [if_neg hlt] at h
        have hrb : r = b := Option.some_inj.1 h
        exact hrb ▸ List.mem_cons_self r rs

theorem firstMinRow_min : ∀ (l : List Row) (b : Row), firstMinRow l = some b →
    ∀ s ∈ l, b.overallpicknum ≤ s.overallpicknum := by
  intro l
  induction l with
  | nil => intro b h; simp [firstMinRow] at h
  | cons r rs ih =>
    intro b h s hs
    cases hrs : firstMinRow rs with
    | none =>
      have hnil : rs = [] := (firstMinRow_eq_none_iff rs).1 hrs
      simp only [firstMinRow, hrs] at h
      subst hnil
      rcases List.mem_cons.1 hs with rfl | hsr
      · exact le_of_eq (congrArg Row.overallpicknum (Option.some_inj.1 h).symm)
      · cases hsr
    | some c =>
      simp only [firstMinRow, hrs] at h
      by_cases hlt : c.overallpicknum < r.overallpicknum
      · rw [if_pos hlt] at h
        have hbc : c = b := Option.some_inj.1 h
        rcases List.mem_cons.1 hs with rfl | hsr
        · exact hbc ▸ le_of_lt hlt
        · exact hbc ▸ ih c hrs s hsr
      · rw [if_neg hlt] at h
        have hbr : r = b := Option.some_inj.1 h
        rcases List.mem_cons.1 hs with rfl | hsr
        · exact le_of_eq (congrArg Row.overallpicknum hbr.symm)
        · have hcs := ih c hrs s hsr
          have hrc : r.overallpicknum ≤ c.overallpicknum := le_of_not_lt hlt
          exact hbr ▸ le_trans hrc hcs

/-- The per-occurrence `idxmin` over a mapped block is the mapped
per-occurrence minimal row. -/
theorem firstMinCand_map (i : Nat) (o : Row) (l : List Row) :
    firstMinCand (l.map (fun r => ⟨i, o, r⟩)) =
      (firstMinRow l).map (fun r => (⟨i, o, r⟩ : MRow)) := by
  induction l with
  | nil => rfl
  | cons r rs ih =>
    cases hrs : firstMinRow rs with
    | none =>
      have hcand : firstMinCand (rs.map (fun r => ⟨i, o, r⟩)) = none := by
        rw [ih, hrs]
        rfl
      simp only [List.map_cons, firstMinCand, firstMinRow, hcand, hrs]
      rfl
    | some b =>
      have hcand : firstMinCand (rs.map (fun r => ⟨i, o, r⟩)) = some ⟨i, o, b⟩ := by
        rw [ih, hrs]
        rfl
      simp only [List.map_cons, firstMinCand, firstMinRow, hcand, hrs]
      by_cases h : b.overallpicknum < r.overallpicknum
      · simp [h]
      · simp [h]

/-- Selecting by a predicate on the payload commutes with `enumFrom`
index tagging. -/
theorem enumFrom_filter_map_snd (p : Row → Bool) (df : List Row) (n : Nat) :
    ((df.enumFrom n).filter (fun o => p o.2)).map Prod.snd = df.filter p := by
  induction df generalizing n with
  | nil => rfl
  | cons a l ih =>
    rw [List.enumFrom_cons]
    by_cases h : p a
    · rw [List.filter_cons_of_pos (by simpa using h), List.map_cons, ih,
        List.filter_cons_of_pos h]
    · rw [List.filter_cons_of_neg (by simpa using h), ih, List.filter_cons_of_neg h]

/-- The occurrence indices produced by `reset_index` are pairwise
distinct. -/
theorem occs_map_fst_nodup (df : List Row) (player : String) :
    ((occs df player).map Prod.fst).Nodup := by
  have hsub : List.Sublist (occs df player) df.enum := List.filter_sublist df.enum
  exact (hsub.map Prod.fst).nodup (List.nodup_enum_map_fst df)

/-- Filtering a tagged `flatMap` by the tag of one of the generators
recovers exactly that generator's block, when the tags are distinct. -/
theorem flatMap_filter_tag {α β : Type} (key : α → Nat) (tag : β → Nat)
    (l : List α) (f : α → List β)
    (hf : ∀ a ∈ l, ∀ b ∈ f a, tag b = key a)
    (hn : (l.map key).Nodup) (a : α) (ha : a ∈ l) :
    (l.flatMap f).filter (fun b => tag b == key a) = f a := by
  induction l with
  | nil => cases ha
  | cons x xs ih =>
    rw [List.flatMap_cons, List.filter_append]
    have hnx : key x ∉ xs.map key := by
      rw [List.map_cons] at hn
      exact (List.nodup_cons.1 hn).1
    rcases List.mem_cons.1 ha with rfl | ha2
    · have h1 : (f a).filter (fun b => tag b == key a) = f a :=
        List.filter_eq_self.2 (fun b hb => by
          simp [hf a (List.mem_cons_self a xs) b hb])
      have h2 : (xs.flatMap f).filter (fun b => tag b == key a) = [] := by
        rw [List.filter_eq_nil_iff]
        intro b hb hc
        rcases List.mem_flatMap.1 hb with ⟨y, hy, hby⟩
        have hty : tag b = key y := hf y (List.mem_cons_of_mem a hy) b hby
        have : key y = key a := hty ▸ (by simpa using hc)
        exact hnx (this ▸ List.mem_map_of_mem key hy)
      rw [h1, h2, List.append_nil]
    · have hne : key x ≠ key a := by
        intro hc
        exact hnx (hc ▸ List.mem_map_of_mem key ha2)
      have h1 : (f x).filter (fun b => tag b == key a) = [] := by
        rw [List.filter_eq_nil_iff]
        intro b hb hc
        have htx : tag b = key x := hf x (List.mem_cons_self x xs) b hb
        exact hne (htx ▸ (by simpa using hc))
      have hn2 : (xs.map key).Nodup := by
        rw [List.map_cons] at hn
        exact (List.nodup_cons.1 hn).2
      rw [h1, List.nil_append]
      exact ih (fun y hy => hf y (List.mem_cons_of_mem x hy)) hn2 ha2

/-- The occurrence rows are exactly the dataframe rows naming the
player. -/
theorem occs_map_snd (df : List Row) (player : String) :
    (occs df player).map Prod.snd = df.filter (fun r => r.playername == player) :=
  enumFrom_filter_map_snd (fun r => r.playername == player) df 0

theorem mem_occs (df : List Row) (player : String) (o : Nat × Row)
    (ho : o ∈ occs df player) : o.2 ∈ df ∧ o.2.playername = player := by
  have h2 : o.2 ∈ (occs df player).map Prod.snd := List.mem_map_of_mem Prod.snd ho
  rw [occs_map_snd] at h2
  have h3 := List.mem_filter.1 h2
  exact ⟨h3.1, by simpa using h3.2⟩

/-- The `filtered` frame decomposes into one block per occurrence, each
block being that occurrence's strictly-later same-team picks. -/
theorem filteredL_eq_flatMap (df : List Row) (player : String) :
    filteredL df player = (occs df player).flatMap
      (fun o => (laterTeamPicks df o.2).map (fun r => ⟨o.1, o.2, r⟩)) := by
  rw [filteredL, mergedL, List.filter_flatMap]
  refine congrArg (List.flatMap (occs df player)) (funext fun o => ?_)
  rw [List.filter_map, laterTeamPicks, List.filter_filter]
  refine congrArg (List.map (fun r => (⟨o.1, o.2, r⟩ : MRow))) ?_
  apply List.filter_congr
  intro r _
  simp [Function.comp, sameTeam, Bool.and_comm]

/-- Filtering the `filtered` frame by one occurrence's index recovers
exactly that occurrence's block. -/
theorem filteredL_group (df : List Row) (player : String) (o : Nat × Row)
    (ho : o ∈ occs df player) :
    (filteredL df player).filter (fun m => m.occ_index == o.1) =
      (laterTeamPicks df o.2).map (fun r => ⟨o.1, o.2, r⟩) := by
  rw [filteredL_eq_flatMap]
  exact flatMap_filter_tag Prod.fst MRow.occ_index (occs df player)
    (fun o => (laterTeamPicks df o.2).map (fun r => ⟨o.1, o.2, r⟩))
    (fun a _ b hb => by rcases List.mem_map.1 hb with ⟨r, _, rfl⟩; rfl)
    (occs_map_fst_nodup df player) o ho

/-- Refinement of the pandas pipeline: the observation series equals
the direct per-occurrence successor query. -/
theorem nextPlayers_eq_spec (df : List Row) (player : String) :
    nextPlayers df player = (df.filter (fun r => r.playername == player)).filterMap
      (fun o => (firstMinRow (laterTeamPicks df o)).map Row.playername) := by
  rw [nextPlayers]
  rw [List.filterMap_congr (g := fun o =>
      (firstMinRow (laterTeamPicks df o.2)).map Row.playername) ?_]
  · rw [← occs_map_snd, List.filterMap_map]
    rfl
  · intro o ho
    rw [filteredL_group df player o ho, firstMinCand_map]
    dsimp only
    cases firstMinRow (laterTeamPicks df o.2) <;> rfl

/-- A non-empty `filtered` frame forces a non-empty observation
series. -/
theorem nextPlayers_ne_nil (df : List Row) (player : String)
    (h : filteredL df player ≠ []) : nextPlayers df player ≠ [] := by
  obtain ⟨m, hm⟩ := List.exists_mem_of_ne_nil _ h
  have hm2 := hm
  rw [filteredL_eq_flatMap] at hm2
  rcases List.mem_flatMap.1 hm2 with ⟨o, ho, hmo⟩
  intro hnil
  have hnone := List.filterMap_eq_nil_iff.1 hnil o ho
  rw [filteredL_group df player o ho, firstMinCand_map] at hnone
  cases hfm : firstMinRow (laterTeamPicks df o.2) with
  | none =>
    have hempty : laterTeamPicks df o.2 = [] := (firstMinRow_eq_none_iff _).1 hfm
    rw [hempty] at hmo
    cases hmo
  | some b =>
    rw [hfm] at hnone
    cases hnone

/-- The `occ` frame is empty exactly when the player has no occurrence
in the dataset. -/
theorem occs_eq_nil_iff (df : List Row) (player : String) :
    occs df player = [] ↔ ∀ r ∈ df, ¬ r.playername = player := by
  constructor
  · intro h r hr hp
    have : (occs df player).map Prod.snd = [] := by rw [h]; rfl
    rw [occs_map_snd, List.filter_eq_nil_iff] at this
    exact this r hr (by simpa using hp)
  · intro h
    have : (occs df player).map Prod.snd = [] := by
      rw [occs_map_snd, List.filter_eq_nil_iff]
      intro r hr hp
      exact h r hr (by simpa using hp)
    exact List.map_eq_nil_iff.1 this

/-- The `filtered` frame is empty exactly when every occurrence of the
player has no strictly-later same-team pick. -/
theorem filteredL_eq_nil_iff (df : List Row) (player : String) :
    filteredL df player = [] ↔
      ∀ r ∈ df, r.playername = player → laterTeamPicks df r = [] := by
  rw [filteredL_eq_flatMap, List.flatMap_eq_nil_iff]
  constructor
  · intro h r hr hp
    have hmem : r ∈ (occs df player).map Prod.snd := by
      rw [occs_map_snd]
      exact List.mem_filter.2 ⟨hr, by simpa using hp⟩
    rcases List.mem_map.1 hmem with ⟨o, ho, rfl⟩
    exact List.map_eq_nil_iff.1 (h o ho)
  · intro h o ho
    obtain ⟨hdf, hp⟩ := mem_occs df player o ho
    rw [List.map_eq_nil_iff]
    exact h o.2 hdf hp

/-! ## Claims about the Next-Pick Analyzer -/

/-- C2: the observation series of `next_pick_distribution` contributes
exactly one observation per occurrence of the player, namely the
player name of the minimal strictly-later same-team pick, and nothing
when no such pick exists: the pipeline equals the per-occurrence
successor query, whose selection is a member of the candidate set, has
minimal `overall_pick_number` there, and is `none` exactly on an empty
candidate set. -/
theorem C2_per_occurrence_observation (df : List Row) (player : String) :
    nextPlayers df player = (df.filter (fun r => r.playername == player)).filterMap
      (fun o => (firstMinRow (laterTeamPicks df o)).map Row.playername) ∧
    (∀ o : Row, (firstMinRow (laterTeamPicks df o) = none ↔ laterTeamPicks df o = []) ∧
      (∀ b, firstMinRow (laterTeamPicks df o) = some b →
        b ∈ laterTeamPicks df o ∧
        ∀ s ∈ laterTeamPicks df o, b.overallpicknum ≤ s.overallpicknum)) :=
  ⟨nextPlayers_eq_spec df player,
    fun _ => ⟨firstMinRow_eq_none_iff _,
      fun b hb => ⟨firstMinRow_mem _ b hb, firstMinRow_min _ b hb⟩⟩⟩

/-- C7: `next_pick_distribution` is total and returns the empty table
exactly when the player has no occurrence or every occurrence was its
team's final pick of the draft; an unknown player is the first
disjunct, not an error. -/
theorem C7_empty_result_iff (df : List Row) (player : String) :
    next_pick_distribution df player = [] ↔
      ((∀ r ∈ df, ¬ r.playername = player) ∨
        (∀ r ∈ df, r.playername = player → laterTeamPicks df r = [])) := by
  rw [next_pick_distribution]
  by_cases h1 : (occs df player).isEmpty
  · rw [if_pos h1]
    exact iff_of_true rfl
      (Or.inl ((occs_eq_nil_iff df player).1 (List.isEmpty_iff.1 h1)))
  · rw [if_neg h1]
    by_cases h2 : (filteredL df player).isEmpty
    · rw [if_pos h2]
      exact iff_of_true rfl
        (Or.inr ((filteredL_eq_nil_iff df player).1 (List.isEmpty_iff.1 h2)))
    · rw [if_neg h2]
      have hfil : filteredL df player ≠ [] := fun hc => h2 (by rw [hc]; rfl)
      have hnp : nextPlayers df player ≠ [] := nextPlayers_ne_nil df player hfil
      apply iff_of_false
      · intro hc
        rw [List.map_eq_nil_iff, distOf, List.map_eq_nil_iff, List.dedup_eq_nil] at hc
        exact hnp hc
      · rintro (hA | hB)
        · exact h1 (by rw [(occs_eq_nil_iff df player).2 hA]; rfl)
        · exact h2 (by rw [(filteredL_eq_nil_iff df player).2 hB]; rfl)

/-- C8: whenever the distribution is non-empty, its exact rational
percentages sum to 100. -/
theorem C8_pct_sum_100 (df : List Row) (player : String)
    (h : next_pick_distribution df player ≠ []) :
    ((next_pick_distribution df player).map DistRow.pct).sum = 100 := by
  rw [next_pick_distribution] at h ⊢
  by_cases h1 : (occs df player).isEmpty
  · rw [if_pos h1] at h
    exact absurd rfl h
  rw [if_neg h1] at h ⊢
  by_cases h2 : (filteredL df player).isEmpty
  · rw [if_pos h2] at h
    exact absurd rfl h
  rw [if_neg h2] at h ⊢
  have hfil : filteredL df player ≠ [] := fun hc => h2 (by rw [hc]; rfl)
  have hnp : nextPlayers df player ≠ [] := nextPlayers_ne_nil df player hfil
  set np := nextPlayers df player
  have hTpos : 0 < totalOf np := by
    obtain ⟨a, ha⟩ := List.exists_mem_of_ne_nil np hnp
    have had : a ∈ np.dedup := List.mem_dedup.2 ha
    have hcount : np.count a ∈ (distOf np).map Prod.snd := by
      rw [distOf, List.map_map]
      exact List.mem_map_of_mem _ had
    have hle : np.count a ≤ totalOf np := List.le_sum_of_mem hcount
    have hpos : 0 < np.count a := List.count_pos_iff.2 ha
    omega
  have hT : ((totalOf np : ℚ)) ≠ 0 :=
    Nat.cast_ne_zero.2 (Nat.pos_iff_ne_zero.1 hTpos)
  rw [List.map_map]
  have hcomp : (DistRow.pct ∘ fun p : String × Nat =>
      (⟨p.1, p.2, (p.2 : ℚ) / (totalOf np : ℚ) * 100⟩ : DistRow)) =
      fun p : String × Nat => (p.2 : ℚ) * (100 / (totalOf np : ℚ)) := by
    funext p
    simp only [Function.comp_apply]
    ring
  rw [hcomp, distOf, List.map_map]
  have hcomp2 : ((fun p : String × Nat => (p.2 : ℚ) * (100 / (totalOf np : ℚ))) ∘
      fun s => (s, np.count s)) =
      fun s => ((np.count s : ℚ)) * (100 / (totalOf np : ℚ)) := rfl
  rw [hcomp2, List.sum_map_mul_right]
  have hsum : (np.dedup.map fun s => ((np.count s : ℚ))).sum = ((totalOf np : ℚ)) := by
    rw [totalOf, distOf, List.map_map, Nat.cast_list_sum, List.map_map]
    rfl
  rw [hsum]
  field_simp

/-- Witness for C8 at a two-row dataset where the distribution is the
single row `("B", 1, 100)`. -/
theorem C8_witness :
    next_pick_distribution [(⟨1, 1, 1, "A"⟩ : Row), ⟨1, 1, 2, "B"⟩] "A" ≠ [] ∧
      ((next_pick_distribution [(⟨1, 1, 1, "A"⟩ : Row), ⟨1, 1, 2, "B"⟩] "A").map
        DistRow.pct).sum = 100 :=
  ⟨by decide, C8_pct_sum_100 [(⟨1, 1, 1, "A"⟩ : Row), ⟨1, 1, 2, "B"⟩] "A" (by decide)⟩

end BBA
